import Mathlib

/-!
Verification of the damage_calc repository (damage_calc.py).

The Python module is embedded shallowly: strings are lists of characters,
Python floats become rationals, and functions that can raise become
functions into the result type Res.  Every definition mirrors the
corresponding source function; the regular expressions of
expected_from_dice are realised as explicit character scanners with the
same semantics on the source grammar.
-/

namespace DamageCalc

/-- Error taxonomy of the module: the dice evaluator raises
UnsupportedExpression (a ValueError naming the offending token), the
re-roll helpers raise UnknownRerollMode. -/
inductive CalcError where
  | unsupportedExpression (tok : List Char) : CalcError
  | unknownRerollMode : CalcError
deriving DecidableEq

/-- Result of a Python call: a value or a raised error. -/
inductive Res (α : Type) where
  | ok (v : α) : Res α
  | err (e : CalcError) : Res α
deriving DecidableEq

/-- ASCII decimal digit, the \d class of the source regexes. -/
def isDig (c : Char) : Bool :=
  decide (48 ≤ c.toNat ∧ c.toNat ≤ 57)

/-- ASCII whitespace as stripped by str.strip. -/
def isSpc (c : Char) : Bool :=
  decide (c.toNat = 32 ∨ (9 ≤ c.toNat ∧ c.toNat ≤ 13))

/-- ASCII lowering, the effect of str.lower on the grammar alphabet. -/
def asciiLower (c : Char) : Char :=
  if 65 ≤ c.toNat ∧ c.toNat ≤ 90 then Char.ofNat (c.toNat + 32) else c

/-- Numeric value of a digit string (most significant first). -/
def natOfDigits (l : List Char) : ℕ :=
  l.foldl (fun a c => 10 * a + (c.toNat - 48)) 0

/-- Does s fully match the bare-number pattern of the source: a nonempty
digit run, then either nothing or a dot followed by a nonempty digit run? -/
def matchesNumber (s : List Char) : Bool :=
  let rest := s.dropWhile isDig
  !(s.takeWhile isDig).isEmpty &&
    (rest.isEmpty || (rest.head? == some '.' && !rest.tail.isEmpty && rest.tail.all isDig))

/-- float(s) for an s that fully matches the bare-number pattern: integer
part plus, when a dot follows, the fractional digits over a power of 10. -/
def numVal (s : List Char) : ℚ :=
  let rest := s.dropWhile isDig
  if rest.head? = some '.' then
    (natOfDigits (s.takeWhile isDig) : ℚ) +
      (natOfDigits rest.tail : ℚ) / (10 : ℚ) ^ rest.tail.length
  else (natOfDigits (s.takeWhile isDig) : ℚ)

/-- expr.strip - drop leading and trailing whitespace. -/
def stripList (s : List Char) : List Char :=
  ((s.dropWhile isSpc).reverse.dropWhile isSpc).reverse

/-- expr.strip().lower().replace of spaces, the normalisation applied
before any matching. -/
def normalize (s : List Char) : List Char :=
  ((stripList s).map asciiLower).filter (fun c => c != ' ')

/-- re.sub inserting an implied count 1 before a d at the start of the
string or right after a sign; prev is the previously scanned character. -/
def insertOnes (prev : Option Char) : List Char → List Char
  | [] => []
  | c :: rest =>
    if c = 'd' ∧ (prev = none ∨ prev = some '+' ∨ prev = some '-') then
      '1' :: 'd' :: insertOnes (some 'd') rest
    else
      c :: insertOnes (some c) rest

/-- Sign character pending before the current token, as a list prefix. -/
def pfxOf : Option Char → List Char
  | none => []
  | some c => [c]

/-- re.findall of optionally signed sign-free runs: pending is the sign
immediately before the current position, cur the token being built. -/
def tokenizeAux (pending : Option Char) (cur : List Char) : List Char → List (List Char)
  | [] => if cur.isEmpty then [] else [cur]
  | c :: rest =>
    if c = '+' ∨ c = '-' then
      if cur.isEmpty then tokenizeAux (some c) [] rest
      else cur :: tokenizeAux (some c) [] rest
    else
      if cur.isEmpty then tokenizeAux none (pfxOf pending ++ [c]) rest
      else tokenizeAux none (cur ++ [c]) rest

/-- The NdS or NdS*M term pattern of the source, returning the summand
n * ((sides + 1) / 2) * mult when the core matches. -/
def matchDiceTerm (core : List Char) : Option ℚ :=
  let np := core.takeWhile isDig
  let rest := core.dropWhile isDig
  if np.isEmpty then none
  else if rest.head? = some 'd' then
    let sc := rest.tail.head?
    if sc = some '3' ∨ sc = some '6' then
      let sides : ℚ := if sc = some '3' then 3 else 6
      let rest2 := rest.tail.tail
      if rest2.isEmpty then some ((natOfDigits np : ℚ) * ((sides + 1) / 2) * 1)
      else if rest2.head? = some '*' then
        let ms := rest2.tail
        if !ms.isEmpty && ms.all isDig then
          some ((natOfDigits np : ℚ) * ((sides + 1) / 2) * (natOfDigits ms : ℚ))
        else none
      else none
    else none
  else none

/-- One loop iteration body of expected_from_dice: sign handling, the
dice-term match, then the bare-number fallback, else the error. -/
def evalTerm : List Char → Res ℚ
  | [] => Res.err (CalcError.unsupportedExpression [])
  | c :: rest =>
    let sign : ℚ := if c = '-' then -1 else 1
    let core := if c = '+' ∨ c = '-' then rest else c :: rest
    match matchDiceTerm core with
    | some v => Res.ok (sign * v)
    | none =>
        if matchesNumber core then Res.ok (sign * numVal core)
        else Res.err (CalcError.unsupportedExpression (c :: rest))

/-- The accumulation loop over the found tokens. -/
def sumTermsAux (total : ℚ) : List (List Char) → Res ℚ
  | [] => Res.ok total
  | t :: ts =>
    match evalTerm t with
    | Res.ok v => sumTermsAux (total + v) ts
    | Res.err e => Res.err e

/-- expected_from_dice of the source: bare-number shortcut, otherwise
implied-one insertion, tokenization and term summation. -/
def expected_from_dice (expr : List Char) : Res ℚ :=
  let s := normalize expr
  if matchesNumber s then Res.ok (numVal s)
  else sumTermsAux 0 (tokenizeAux none [] (insertOnes none s))

/-- clamp of the source. -/
def clamp (n lo hi : ℤ) : ℤ := max lo (min hi n)

/-- prob_success_on of the source: clamp into 2..6, then (7 - t) / 6. -/
def prob_success_on (target : ℤ) : ℚ :=
  ((7 - clamp target 2 6 : ℤ) : ℚ) / 6

/-- The three re-roll mode strings and the two mortal mode strings. -/
def strNone : String := "none"

def strOnes : String := "ones"

def strFailed : String := "failed"

def strInstead : String := "instead"

def strInAddition : String := "in_addition"

/-- p_success_with_reroll of the source. -/
def p_success_with_reroll (p : ℚ) (mode : String) : Res ℚ :=
  if mode = "none" then Res.ok p
  else if mode = "failed" then Res.ok (p + (1 - p) * p)
  else if mode = "ones" then Res.ok (p + 1 / 6 * p)
  else Res.err CalcError.unknownRerollMode

/-- p_nat6_with_reroll of the source. -/
def p_nat6_with_reroll (success_p_no_mod : ℚ) (mode : String) : Res ℚ :=
  if mode = "none" then Res.ok (1 / 6)
  else if mode = "ones" then Res.ok (1 / 6 + 1 / 6 * (1 / 6))
  else if mode = "failed" then Res.ok (1 / 6 + (1 - success_p_no_mod) * (1 / 6))
  else Res.err CalcError.unknownRerollMode

/-- Effects of the source, a plain configuration record. -/
structure Effects where
  reroll_hit : String
  reroll_wound : String
  explode_on_hit_6 : ℕ
  autowound_on_hit_6 : Bool
  mortal_on_hit_6_value : Option (List Char)
  mortal_on_hit_6_mode : String
  continue_to_wound_after_mortal_on_hit : Bool
  mortal_on_wound_6_value : Option (List Char)
  mortal_on_wound_6_mode : String
  explode_applies_to_autowounds : Bool

/-- WeaponProfile of the source. -/
structure WeaponProfile where
  name : List Char
  attacks : ℕ
  hit : ℤ
  wound : ℤ
  rend : ℤ
  damage : List Char
  hit_mod : ℤ
  wound_mod : ℤ
  target_save : ℤ
  defender_save_mod : ℤ
  target_ward : Option ℤ
  effects : Effects

/-- Python truthiness of an optional string, as used on the two
mortal-value fields: None and the empty string are falsy. -/
def optStr : Option (List Char) → Bool
  | none => false
  | some s => !s.isEmpty

/-- Conditional evaluation of a mortal-value expression: the source
evaluates expected_from_dice only when the field is truthy. -/
def mortalValue : Option (List Char) → Res ℚ
  | none => Res.ok 0
  | some s => if s.isEmpty then Res.ok 0 else expected_from_dice s

/-- The ward probability as the source computes it, including the
truthiness test on the optional target (0 counts as absent). -/
def wardTruthyProb : Option ℤ → ℚ
  | none => 0
  | some w => if w = 0 then 0 else prob_success_on w

/-- Reading of the ward probability in the specification: present wards
use prob_success_on, absent wards give 0. -/
def ward_prob : Option ℤ → ℚ
  | none => 0
  | some w => prob_success_on w

/-- Lines 168-194 of the source: starting from the auto-wound pool and
the needs-wound-roll pool, apply the two sequential hit-mortal
consumption blocks (mode instead, then mode in_addition without
continuation), each drawing p_hit_nat6 from the auto-wound pool when
autowound and explode_applies_to_autowounds hold, else from the
needs-wound pool, clamped at 0.  Returns (auto pool, needs-wound pool). -/
def poolsAfterHitMortal (e : Effects) (pHitNat6 autoW needW : ℚ) : ℚ × ℚ :=
  let afterInstead :=
    if optStr e.mortal_on_hit_6_value = true ∧ e.mortal_on_hit_6_mode = "instead" then
      if e.autowound_on_hit_6 = true ∧ e.explode_applies_to_autowounds = true then
        (max 0 (autoW - pHitNat6), needW)
      else
        (autoW, max 0 (needW - pHitNat6))
    else (autoW, needW)
  if optStr e.mortal_on_hit_6_value = true ∧ e.mortal_on_hit_6_mode = "in_addition" ∧
      e.continue_to_wound_after_mortal_on_hit = false then
    if e.autowound_on_hit_6 = true ∧ e.explode_applies_to_autowounds = true then
      (max 0 (afterInstead.1 - pHitNat6), afterInstead.2)
    else
      (afterInstead.1, max 0 (afterInstead.2 - pHitNat6))
  else afterInstead

/-- The pure tail of expected_damage, lines 146-225 of the source, once
every fallible sub-call has produced its value. -/
def damageCore (attacks : ℕ) (e : Effects)
    (p_hit p_wound p_hit_nat6 p_wound_nat6 p_save p_ward
      e_normal_dmg e_mortal_on_hit e_mortal_on_wound : ℚ) : ℚ :=
  let extra_hits := (e.explode_on_hit_6 : ℚ) * p_hit_nat6
  let p_autowound := if e.autowound_on_hit_6 then p_hit_nat6 else 0
  let exp_non_auto := max 0 (p_hit - p_autowound)
  let needW0 := exp_non_auto + extra_hits
  let autoW0 := p_autowound
  let exp_mortals_on_hit_raw := p_hit_nat6 * e_mortal_on_hit
  let pools := poolsAfterHitMortal e p_hit_nat6 autoW0 needW0
  let wounds0 := pools.2 * p_wound
  let procs := pools.2 * p_wound_nat6
  let exp_mortals_on_wound_raw := procs * e_mortal_on_wound
  let wounds1 :=
    if optStr e.mortal_on_wound_6_value = true ∧ e.mortal_on_wound_6_mode = "instead" then
      max 0 (wounds0 - procs)
    else wounds0
  let exp_wounds_before_save := pools.1 + wounds1
  let p_unsaved := 1 - p_save
  let p_unwarded := 1 - p_ward
  let exp_normal := exp_wounds_before_save * p_unsaved * p_unwarded * e_normal_dmg
  let exp_mortal := (exp_mortals_on_hit_raw + exp_mortals_on_wound_raw) * p_unwarded
  (attacks : ℚ) * (exp_normal + exp_mortal)

/-- WeaponProfile.expected_damage of the source.  The fallible
sub-computations are sequenced in source order (damage expression,
re-roll of hit and wound, natural-6 probabilities, the two mortal
expressions); the remaining arithmetic is damageCore. -/
def expected_damage (p : WeaponProfile) : Res ℚ :=
  let e := p.effects
  let hit_target := clamp (p.hit - p.hit_mod) 2 6
  let wound_target := clamp (p.wound - p.wound_mod) 2 6
  let save_target := clamp (p.target_save - p.rend - p.defender_save_mod) 2 6
  let p_hit_base := prob_success_on hit_target
  let p_wound_base := prob_success_on wound_target
  let p_save := prob_success_on save_target
  let p_ward := wardTruthyProb p.target_ward
  match expected_from_dice p.damage with
  | Res.err er => Res.err er
  | Res.ok e_normal_dmg =>
    match p_success_with_reroll p_hit_base e.reroll_hit with
    | Res.err er => Res.err er
    | Res.ok p_hit =>
      match p_success_with_reroll p_wound_base e.reroll_wound with
      | Res.err er => Res.err er
      | Res.ok p_wound =>
        match p_nat6_with_reroll p_hit_base e.reroll_hit with
        | Res.err er => Res.err er
        | Res.ok p_hit_nat6 =>
          match p_nat6_with_reroll p_wound_base e.reroll_wound with
          | Res.err er => Res.err er
          | Res.ok p_wound_nat6 =>
            match mortalValue e.mortal_on_hit_6_value with
            | Res.err er => Res.err er
            | Res.ok e_mortal_on_hit =>
              match mortalValue e.mortal_on_wound_6_value with
              | Res.err er => Res.err er
              | Res.ok e_mortal_on_wound =>
                Res.ok (damageCore p.attacks e p_hit p_wound p_hit_nat6 p_wound_nat6
                  p_save p_ward e_normal_dmg e_mortal_on_hit e_mortal_on_wound)

/-- expected_damage_total of the source: sum over the profiles, raising
the first error met, scanning left to right. -/
def expected_damage_total : List WeaponProfile → Res ℚ
  | [] => Res.ok 0
  | p :: ps =>
    match expected_damage p with
    | Res.err er => Res.err er
    | Res.ok v =>
      match expected_damage_total ps with
      | Res.err er => Res.err er
      | Res.ok rest => Res.ok (v + rest)

end DamageCalc

namespace DamageCalc

/-! ## Helper lemmas -/

theorem psr_none_eq (p : ℚ) : p_success_with_reroll p strNone = Res.ok p := rfl

theorem psr_failed_eq (p : ℚ) :
    p_success_with_reroll p strFailed = Res.ok (p + (1 - p) * p) := rfl

theorem psr_ones_eq (p : ℚ) :
    p_success_with_reroll p strOnes = Res.ok (p + 1 / 6 * p) := rfl

theorem pn6_none_eq (p : ℚ) : p_nat6_with_reroll p strNone = Res.ok (1 / 6) := rfl

theorem pn6_ones_eq (p : ℚ) :
    p_nat6_with_reroll p strOnes = Res.ok (1 / 6 + 1 / 6 * (1 / 6)) := rfl

theorem pn6_failed_eq (p : ℚ) :
    p_nat6_with_reroll p strFailed = Res.ok (1 / 6 + (1 - p) * (1 / 6)) := rfl

theorem clamp_idem (t : ℤ) : clamp (clamp t 2 6) 2 6 = clamp t 2 6 := by
  unfold clamp; omega

theorem prob_success_on_nonneg (t : ℤ) : 0 ≤ prob_success_on t := by
  unfold prob_success_on
  have h : (0 : ℤ) ≤ 7 - clamp t 2 6 := by unfold clamp; omega
  exact div_nonneg (by exact_mod_cast h) (by norm_num)

/-! ## Claims C5, C6 -/

/-- C5: p_success_with_reroll returns p for mode none, p + (1-p)p for mode
failed, p + p/6 for mode ones; p_nat6_with_reroll returns 1/6 for none,
1/6 + (1/6)(1/6) for ones, and 1/6 + (1 - p_no_reroll)(1/6) for failed,
for every probability input. -/
theorem C5_reroll_values (p : ℚ) :
    p_success_with_reroll p strNone = Res.ok p
  ∧ p_success_with_reroll p strFailed = Res.ok (p + (1 - p) * p)
  ∧ p_success_with_reroll p strOnes = Res.ok (p + p / 6)
  ∧ p_nat6_with_reroll p strNone = Res.ok (1 / 6)
  ∧ p_nat6_with_reroll p strOnes = Res.ok (1 / 6 + 1 / 6 * (1 / 6))
  ∧ p_nat6_with_reroll p strFailed = Res.ok (1 / 6 + (1 - p) * (1 / 6)) := by
  refine ⟨rfl, rfl, ?_, rfl, rfl, rfl⟩
  rw [show p + p / 6 = p + 1 / 6 * p from by ring]
  rfl

/-- C6: prob_success_on of any integer target equals prob_success_on of
the target clamped to 2..6, and equals (7 - clamp t 2 6) / 6; in
particular prob_success_on 6 = 1/6 and prob_success_on 2 = 5/6. -/
theorem C6_prob_success_clamp : ∀ t : ℤ,
    prob_success_on t = prob_success_on (clamp t 2 6)
  ∧ prob_success_on t = ((7 - clamp t 2 6 : ℤ) : ℚ) / 6
  ∧ prob_success_on 6 = 1 / 6
  ∧ prob_success_on 2 = 5 / 6 := by
  intro t
  refine ⟨?_, rfl, rfl, rfl⟩
  unfold prob_success_on
  rw [clamp_idem]

/-! ## Claim C8 -/

/-- C8 counterexample: p = 1 lies in the unit interval, yet re-rolling
ones turns it into 7/6, which exceeds 1, refuting the claim that for
every p in the unit interval both re-rolled results stay at most 1. -/
theorem C8_counterexample :
    (0 : ℚ) ≤ 1 ∧ (1 : ℚ) ≤ 1
  ∧ p_success_with_reroll 1 strOnes = Res.ok (7 / 6)
  ∧ ¬((7 : ℚ) / 6 ≤ 1) := by
  refine ⟨by norm_num, le_refl 1, ?_, by norm_num⟩
  rw [psr_ones_eq]
  norm_num

/-- C8 amended: for every p in the unit interval, re-rolling failed or
ones never decreases the success probability, both dominate mode none,
and the failed result stays at most 1; the ones result stays at most 1
whenever p is at most 6/7 (which covers every value prob_success_on can
produce), but not on the whole unit interval. -/
theorem C8_amended (p : ℚ) (h0 : 0 ≤ p) (h1 : p ≤ 1) :
    p_success_with_reroll p strFailed = Res.ok (p + (1 - p) * p)
  ∧ p ≤ p + (1 - p) * p
  ∧ p + (1 - p) * p ≤ 1
  ∧ p_success_with_reroll p strOnes = Res.ok (p + 1 / 6 * p)
  ∧ p ≤ p + 1 / 6 * p
  ∧ p_success_with_reroll p strNone = Res.ok p
  ∧ (p ≤ 6 / 7 → p + 1 / 6 * p ≤ 1) := by
  have hq : (0 : ℚ) ≤ (1 - p) * p := mul_nonneg (by linarith) h0
  refine ⟨rfl, by linarith, by nlinarith [sq_nonneg (1 - p)], rfl, by linarith, rfl, ?_⟩
  intro h
  linarith

theorem C8_amended_witness :
    p_success_with_reroll (1 / 2) strFailed = Res.ok ((1 : ℚ) / 2 + (1 - 1 / 2) * (1 / 2))
  ∧ (1 : ℚ) / 2 ≤ 1 / 2 + (1 - 1 / 2) * (1 / 2)
  ∧ (1 : ℚ) / 2 + (1 - 1 / 2) * (1 / 2) ≤ 1
  ∧ p_success_with_reroll (1 / 2) strOnes = Res.ok ((1 : ℚ) / 2 + 1 / 6 * (1 / 2))
  ∧ (1 : ℚ) / 2 ≤ 1 / 2 + 1 / 6 * (1 / 2)
  ∧ p_success_with_reroll (1 / 2) strNone = Res.ok (1 / 2)
  ∧ ((1 : ℚ) / 2 ≤ 6 / 7 → (1 : ℚ) / 2 + 1 / 6 * (1 / 2) ≤ 1) :=
  C8_amended (1 / 2) (by norm_num) (by norm_num)

/-! ## Claim C2 -/

/-- Effects record with every optional rule disabled. -/
def c2Effects : Effects :=
  ⟨strNone, strNone, 0, false, none, strInstead, false, none, strInstead, true⟩

/-- The concrete scenario of the claim, without ward. -/
def c2Profile : WeaponProfile :=
  ⟨[], 4, 3, 3, -1, ['2'], 0, 0, 4, 0, none, c2Effects⟩

/-- The concrete scenario of the claim, with a 6+ ward. -/
def c2ProfileWard : WeaponProfile :=
  ⟨[], 4, 3, 3, -1, ['2'], 0, 0, 4, 0, some 6, c2Effects⟩

/-- C2 counterexample: on the stated profile expected_damage is exactly
64/27, which is about 2.370 and more than a quarter above 1.975, and with
a 6+ ward it is exactly 160/81, about 1.975, more than a quarter above
the claimed 1.646: both stated numbers are wrong. -/
theorem C2_counterexample :
    expected_damage c2Profile = Res.ok (64 / 27)
  ∧ (1975 : ℚ) / 1000 + 1 / 4 < 64 / 27
  ∧ expected_damage c2ProfileWard = Res.ok (160 / 81)
  ∧ (1646 : ℚ) / 1000 + 1 / 4 < 160 / 81 := by
  refine ⟨by with_unfolding_all rfl, by norm_num, by with_unfolding_all rfl, by norm_num⟩

/-- C2 amended: the profile with attacks 4, hit 3, wound 3, rend -1,
damage 2, save 4 and no effects evaluates to 64/27, about 2.370, and the
same profile with a 6+ ward evaluates to that value multiplied by
(1 - 1/6), which is 160/81, about 1.975. -/
theorem C2_amended :
    expected_damage c2Profile = Res.ok (64 / 27)
  ∧ expected_damage c2ProfileWard = Res.ok (64 / 27 * (1 - 1 / 6))
  ∧ (64 : ℚ) / 27 * (1 - 1 / 6) = 160 / 81 := by
  refine ⟨by with_unfolding_all rfl, by with_unfolding_all rfl, by norm_num⟩

/-! ## Claim C4 -/

/-- C4: inside expected_damage (whose hit-mortal consumption step is the
embedded poolsAfterHitMortal), when the hit-mortal value is set and the
mode is instead, or the mode is in_addition without continuation, exactly
p_hit_nat6 is consumed: from the auto-wound pool when autowound_on_hit_6
and explode_applies_to_autowounds both hold, otherwise from the
needs-wound pool, clamping the affected pool at 0; with mode in_addition
and continuation true no pool is reduced. -/
theorem C4_hit_mortal_consumption (e : Effects) (nat6 autoW needW : ℚ)
    (hval : optStr e.mortal_on_hit_6_value = true) :
    ((e.mortal_on_hit_6_mode = "instead" ∨
        (e.mortal_on_hit_6_mode = "in_addition" ∧
          e.continue_to_wound_after_mortal_on_hit = false)) →
      poolsAfterHitMortal e nat6 autoW needW =
        (if e.autowound_on_hit_6 = true ∧ e.explode_applies_to_autowounds = true then
          (max 0 (autoW - nat6), needW)
        else (autoW, max 0 (needW - nat6))))
  ∧ ((e.mortal_on_hit_6_mode = "in_addition" ∧
        e.continue_to_wound_after_mortal_on_hit = true) →
      poolsAfterHitMortal e nat6 autoW needW = (autoW, needW)) := by
  constructor
  · rintro (hm | ⟨hm, hc⟩)
    · simp [poolsAfterHitMortal, hval, hm]
    · simp [poolsAfterHitMortal, hval, hm, hc]
  · rintro ⟨hm, hc⟩
    simp [poolsAfterHitMortal, hval, hm, hc]

/-- Effects record used by the C4 witness: hit mortals of 1 in mode
instead, no auto-wound. -/
def c4Effects : Effects :=
  ⟨strNone, strNone, 0, false, some ['1'], strInstead, false, none, strInstead, true⟩

theorem C4_hit_mortal_consumption_witness :
    poolsAfterHitMortal c4Effects (1 / 6) (1 / 2) (1 / 3) = (1 / 2, 1 / 6) := by
  have h := (C4_hit_mortal_consumption c4Effects (1 / 6) (1 / 2) (1 / 3) rfl).1 (Or.inl rfl)
  rw [h, if_neg]
  · with_unfolding_all rfl
  · rintro ⟨h1, -⟩
    exact absurd h1 (by simp [c4Effects])

end DamageCalc

namespace DamageCalc

/-! ## Claim C1 -/

/-- C1: with every effect disabled (both re-rolls none, no explosions,
no autowound, both mortal values absent) and any ward in the documented
2..6 domain, expected_damage is attacks times p_hit times p_wound times
(1 - p_save) times (1 - p_ward) times the expected damage expression,
the stage probabilities being prob_success_on of the clamped effective
targets and p_ward being prob_success_on of the ward when present. -/
theorem C1_classical_formula (p : WeaponProfile) (d : ℚ)
    (h1 : p.effects.reroll_hit = "none")
    (h2 : p.effects.reroll_wound = "none")
    (h3 : p.effects.explode_on_hit_6 = 0)
    (h4 : p.effects.autowound_on_hit_6 = false)
    (h5 : p.effects.mortal_on_hit_6_value = none)
    (h6 : p.effects.mortal_on_wound_6_value = none)
    (h7 : ∀ w, p.target_ward = some w → 2 ≤ w ∧ w ≤ 6)
    (hd : expected_from_dice p.damage = Res.ok d) :
    expected_damage p = Res.ok ((p.attacks : ℚ)
      * prob_success_on (clamp (p.hit - p.hit_mod) 2 6)
      * prob_success_on (clamp (p.wound - p.wound_mod) 2 6)
      * (1 - prob_success_on (clamp (p.target_save - p.rend - p.defender_save_mod) 2 6))
      * (1 - ward_prob p.target_ward) * d) := by
  have hward : wardTruthyProb p.target_ward = ward_prob p.target_ward := by
    cases hw : p.target_ward with
    | none => rfl
    | some w =>
      have hw2 := (h7 w hw).1
      simp only [wardTruthyProb, ward_prob]
      rw [if_neg (by omega)]
  have hnn := prob_success_on_nonneg (clamp (p.hit - p.hit_mod) 2 6)
  simp [expected_damage, h1, h2, h5, h6, hd, mortalValue, p_success_with_reroll,
        p_nat6_with_reroll, damageCore, poolsAfterHitMortal, optStr, h3, h4, hward]
  rw [max_eq_right hnn]
  ring

/-- Effects record with every optional rule disabled, for the C1 witness. -/
def c1Effects : Effects :=
  ⟨strNone, strNone, 0, false, none, strInstead, false, none, strInstead, true⟩

/-- Profile used by the C1 witness. -/
def c1Profile : WeaponProfile :=
  ⟨[], 1, 4, 4, 0, ['3'], 0, 0, 4, 0, none, c1Effects⟩

theorem C1_classical_formula_witness :
    expected_damage c1Profile = Res.ok ((c1Profile.attacks : ℚ)
      * prob_success_on (clamp (c1Profile.hit - c1Profile.hit_mod) 2 6)
      * prob_success_on (clamp (c1Profile.wound - c1Profile.wound_mod) 2 6)
      * (1 - prob_success_on
          (clamp (c1Profile.target_save - c1Profile.rend - c1Profile.defender_save_mod) 2 6))
      * (1 - ward_prob c1Profile.target_ward) * 3) :=
  C1_classical_formula c1Profile 3 rfl rfl rfl rfl rfl rfl
    (fun w hw => Option.noConfusion hw) (by with_unfolding_all rfl)

end DamageCalc

namespace DamageCalc

/-! ## Claim C9 -/

/-- C9: batch evaluation is the sum of the individual expected_damage
results and is independent of the order of the profiles; in particular
on a two-profile list it is the sum of the two evaluations. -/
theorem C9_batch_sum :
    (∀ (l : List WeaponProfile) (f : WeaponProfile → ℚ),
        (∀ q ∈ l, expected_damage q = Res.ok (f q)) →
        expected_damage_total l = Res.ok ((l.map f).sum))
  ∧ (∀ (l l2 : List WeaponProfile) (f : WeaponProfile → ℚ), l.Perm l2 →
        (∀ q ∈ l, expected_damage q = Res.ok (f q)) →
        expected_damage_total l = expected_damage_total l2)
  ∧ (∀ (q1 q2 : WeaponProfile) (v1 v2 : ℚ),
        expected_damage q1 = Res.ok v1 → expected_damage q2 = Res.ok v2 →
        expected_damage_total [q1, q2] = Res.ok (v1 + v2)) := by
  have part1 : ∀ (l : List WeaponProfile) (f : WeaponProfile → ℚ),
      (∀ q ∈ l, expected_damage q = Res.ok (f q)) →
      expected_damage_total l = Res.ok ((l.map f).sum) := by
    intro l f
    induction l with
    | nil => intro _; rfl
    | cons q qs ih =>
      intro h
      have hq := h q (List.mem_cons_self q qs)
      have hqs := ih (fun r hr => h r (List.mem_cons_of_mem q hr))
      simp [expected_damage_total, hq, hqs]
  refine ⟨part1, ?_, ?_⟩
  · intro l l2 f hperm h
    have h2 : ∀ q ∈ l2, expected_damage q = Res.ok (f q) := fun q hq =>
      h q (hperm.mem_iff.mpr hq)
    rw [part1 l f h, part1 l2 f h2, (hperm.map f).sum_eq]
  · intro q1 q2 v1 v2 h1 h2
    simp [expected_damage_total, h1, h2]

/-- Effects record with every optional rule disabled, for the C9 witness. -/
def c9Effects : Effects :=
  ⟨strNone, strNone, 0, false, none, strInstead, false, none, strInstead, true⟩

/-- First profile of the C9 witness (expected damage 1/8). -/
def c9aProfile : WeaponProfile :=
  ⟨[], 1, 4, 4, 0, ['1'], 0, 0, 4, 0, none, c9Effects⟩

/-- Second profile of the C9 witness (expected damage 1/4). -/
def c9bProfile : WeaponProfile :=
  ⟨[], 2, 4, 4, 0, ['1'], 0, 0, 4, 0, none, c9Effects⟩

theorem C9_batch_sum_witness :
    expected_damage_total [c9aProfile, c9bProfile] = Res.ok ((1 : ℚ) / 8 + 1 / 4) :=
  C9_batch_sum.2.2 c9aProfile c9bProfile (1 / 8) (1 / 4)
    (by with_unfolding_all rfl) (by with_unfolding_all rfl)

/-! ## Claim C10 -/

/-- Every character of an all-whitespace string is stripped. -/
lemma dropWhile_all_space (s : List Char) (h : ∀ c ∈ s, isSpc c = true) :
    s.dropWhile isSpc = [] := by
  induction s with
  | nil => rfl
  | cons c cs ih =>
    rw [List.dropWhile_cons]
    simp [h c (List.mem_cons_self c cs), ih (fun x hx => h x (List.mem_cons_of_mem c hx))]

/-- Normalisation of an all-whitespace string is empty. -/
lemma normalize_all_space (s : List Char) (h : ∀ c ∈ s, isSpc c = true) :
    normalize s = [] := by
  simp [normalize, stripList, dropWhile_all_space s h]

/-- C10: the empty string and any all-whitespace string evaluate to 0
without an error: the bare-number match fails, tokenization of the empty
remainder yields no terms, and the empty sum 0 is returned. -/
theorem C10_blank_expression :
    expected_from_dice [] = Res.ok 0
  ∧ matchesNumber (normalize []) = false
  ∧ tokenizeAux none [] (insertOnes none (normalize [])) = []
  ∧ (∀ s : List Char, (∀ c ∈ s, isSpc c = true) → expected_from_dice s = Res.ok 0) := by
  refine ⟨rfl, rfl, rfl, ?_⟩
  intro s h
  simp [expected_from_dice, normalize_all_space s h, matchesNumber, insertOnes,
        tokenizeAux, sumTermsAux]

theorem C10_blank_expression_witness :
    expected_from_dice [' ', ' '] = Res.ok 0 :=
  C10_blank_expression.2.2.2 [' ', ' '] (by decide)

end DamageCalc

namespace DamageCalc

/-! ## Claim C3: spec-side grammar and refinement -/

/-! Spec-side grammar of dice expressions (section 4.1 of the spec). -/

inductive DiceSides where
  | three : DiceSides
  | six : DiceSides

def sidesChar : DiceSides → Char
  | DiceSides.three => '3'
  | DiceSides.six => '6'

def sidesVal : DiceSides → ℚ
  | DiceSides.three => 3
  | DiceSides.six => 6

structure DiceSpec where
  count : List Char
  sides : DiceSides
  mult : Option (List Char)

inductive TermSpec where
  | bare (intPart : List Char) (fracPart : Option (List Char)) : TermSpec
  | dice (d : DiceSpec) : TermSpec

def fracChars : Option (List Char) → List Char
  | none => []
  | some f => '.' :: f

def multChars : Option (List Char) → List Char
  | none => []
  | some m => '*' :: m

def optDigits : Option (List Char) → Bool
  | none => true
  | some f => !f.isEmpty && f.all isDig

def fracVal : Option (List Char) → ℚ
  | none => 0
  | some f => (natOfDigits f : ℚ) / (10 : ℚ) ^ f.length

def multVal : Option (List Char) → ℚ
  | none => 1
  | some m => (natOfDigits m : ℚ)

def renderTerm : TermSpec → List Char
  | TermSpec.bare ip fp => ip ++ fracChars fp
  | TermSpec.dice d => d.count ++ 'd' :: sidesChar d.sides :: multChars d.mult

def termWF : TermSpec → Bool
  | TermSpec.bare ip fp => !ip.isEmpty && ip.all isDig && optDigits fp
  | TermSpec.dice d => d.count.all isDig && optDigits d.mult

def termValue : TermSpec → ℚ
  | TermSpec.bare ip fp => (natOfDigits ip : ℚ) + fracVal fp
  | TermSpec.dice d =>
      (if d.count.isEmpty then 1 else (natOfDigits d.count : ℚ)) *
        ((sidesVal d.sides + 1) / 2) * multVal d.mult

def fillTerm : TermSpec → TermSpec
  | TermSpec.bare ip fp => TermSpec.bare ip fp
  | TermSpec.dice d =>
      TermSpec.dice ⟨if d.count.isEmpty then ['1'] else d.count, d.sides, d.mult⟩

def signChar (neg : Bool) : Char := if neg then '-' else '+'

def signVal (neg : Bool) : ℚ := if neg then -1 else 1

def renderExpr (neg0 : Bool) (t0 : TermSpec) (rest : List (Bool × TermSpec)) : List Char :=
  (if neg0 then ['-'] else []) ++ renderTerm t0 ++
    (rest.map (fun pr => signChar pr.1 :: renderTerm pr.2)).flatten

def exprValue (neg0 : Bool) (t0 : TermSpec) (rest : List (Bool × TermSpec)) : ℚ :=
  signVal neg0 * termValue t0 + (rest.map (fun pr => signVal pr.1 * termValue pr.2)).sum

def coreChar (c : Char) : Bool :=
  isDig c || c == 'd' || c == '3' || c == '6' || c == '*' || c == '.'

def exprChar (c : Char) : Bool :=
  coreChar c || c == '+' || c == '-'

lemma isDig_toNat {c : Char} (h : isDig c = true) : 48 ≤ c.toNat ∧ c.toNat ≤ 57 := by
  simpa [isDig] using h

lemma isDig_ne {c : Char} (h : isDig c = true) :
    c ≠ 'd' ∧ c ≠ '+' ∧ c ≠ '-' ∧ c ≠ '.' ∧ c ≠ '*' := by
  have hn := isDig_toNat h
  refine ⟨?_, ?_, ?_, ?_, ?_⟩ <;> (intro hh; subst hh; revert hn; decide)

lemma coreChar_cases {c : Char} (h : coreChar c = true) :
    isDig c = true ∨ c = 'd' ∨ c = '3' ∨ c = '6' ∨ c = '*' ∨ c = '.' := by
  simpa [coreChar, Bool.or_eq_true, beq_iff_eq, or_assoc] using h

lemma exprChar_cases {c : Char} (h : exprChar c = true) :
    isDig c = true ∨ c = 'd' ∨ c = '3' ∨ c = '6' ∨ c = '*' ∨ c = '.' ∨ c = '+' ∨ c = '-' := by
  have h2 : coreChar c = true ∨ c = '+' ∨ c = '-' := by
    simpa [exprChar, Bool.or_eq_true, beq_iff_eq, or_assoc] using h
  rcases h2 with hc | h3 | h4
  · rcases coreChar_cases hc with h | h | h | h | h | h <;> tauto
  · tauto
  · tauto

lemma exprChar_norm {c : Char} (h : exprChar c = true) :
    isSpc c = false ∧ asciiLower c = c ∧ (c != ' ') = true := by
  rcases exprChar_cases h with h1 | rfl | rfl | rfl | rfl | rfl | rfl | rfl
  · have hn := isDig_toNat h1
    refine ⟨?_, ?_, ?_⟩
    · simp only [isSpc, decide_eq_false_iff_not]
      omega
    · unfold asciiLower
      rw [if_neg (by omega)]
    · simp only [bne_iff_ne, ne_eq]
      intro hh
      subst hh
      revert hn
      decide
  all_goals decide

lemma coreChar_not_sign {c : Char} (h : coreChar c = true) : (c = '+' ∨ c = '-') → False := by
  rcases coreChar_cases h with h1 | rfl | rfl | rfl | rfl | rfl
  · rintro (rfl | rfl) <;> (revert h1; decide)
  all_goals decide


lemma dropWhile_no (p : Char → Bool) (s : List Char) (h : ∀ c ∈ s, p c = false) :
    s.dropWhile p = s := by
  cases s with
  | nil => rfl
  | cons c cs =>
    rw [List.dropWhile_cons, h c (List.mem_cons_self c cs)]
    simp

lemma map_id_of (f : Char → Char) (s : List Char) (h : ∀ c ∈ s, f c = c) :
    s.map f = s := by
  induction s with
  | nil => rfl
  | cons c cs ih =>
    rw [List.map_cons, h c (List.mem_cons_self c cs),
        ih (fun x hx => h x (List.mem_cons_of_mem c hx))]

lemma normalize_of_exprChars (s : List Char) (h : ∀ c ∈ s, exprChar c = true) :
    normalize s = s := by
  have h1 : ∀ c ∈ s, isSpc c = false := fun c hc => (exprChar_norm (h c hc)).1
  have hstrip : stripList s = s := by
    unfold stripList
    rw [dropWhile_no _ s h1]
    rw [dropWhile_no _ s.reverse (fun c hc => h1 c (List.mem_reverse.mp hc))]
    exact List.reverse_reverse s
  unfold normalize
  rw [hstrip, map_id_of _ s (fun c hc => (exprChar_norm (h c hc)).2.1)]
  rw [List.filter_eq_self.mpr (fun c hc => (exprChar_norm (h c hc)).2.2)]

def lastOr (prev : Option Char) (xs : List Char) : Option Char :=
  match xs.getLast? with
  | some c => some c
  | none => prev

lemma lastOr_nil (prev : Option Char) : lastOr prev [] = prev := rfl

lemma lastOr_cons (prev : Option Char) (c : Char) (cs : List Char) :
    lastOr prev (c :: cs) = lastOr (some c) cs := by
  cases cs with
  | nil => rfl
  | cons c2 cs2 =>
    rcases hg : (c2 :: cs2).getLast? with _ | x
    · exact absurd hg (by simp)
    · simp [lastOr, List.getLast?_cons_cons, hg]

lemma insertOnes_append (xs : List Char) :
    ∀ (prev : Option Char) (ys : List Char),
    insertOnes prev (xs ++ ys) = insertOnes prev xs ++ insertOnes (lastOr prev xs) ys := by
  induction xs with
  | nil => intro prev ys; simp [insertOnes, lastOr_nil]
  | cons c cs ih =>
    intro prev ys
    rw [List.cons_append]
    simp only [insertOnes]
    rw [lastOr_cons]
    by_cases hd : c = 'd' ∧ (prev = none ∨ prev = some '+' ∨ prev = some '-')
    · rw [if_pos hd, if_pos hd]
      obtain ⟨rfl, -⟩ := hd
      rw [ih (some 'd') ys]
      simp
    · rw [if_neg hd, if_neg hd, ih (some c) ys]
      simp

lemma insertOnes_no_d (xs : List Char) (h : ∀ c ∈ xs, c ≠ 'd') :
    ∀ prev : Option Char, insertOnes prev xs = xs := by
  induction xs with
  | nil => intro prev; rfl
  | cons c cs ih =>
    intro prev
    simp only [insertOnes]
    rw [if_neg, ih (fun x hx => h x (List.mem_cons_of_mem c hx)) (some c)]
    rintro ⟨hc, -⟩
    exact h c (List.mem_cons_self c cs) hc


lemma insertOnes_cons_not (prev : Option Char) (c : Char) (rest : List Char)
    (h : ¬(c = 'd' ∧ (prev = none ∨ prev = some '+' ∨ prev = some '-'))) :
    insertOnes prev (c :: rest) = c :: insertOnes (some c) rest := by
  simp only [insertOnes]
  rw [if_neg h]

lemma insertOnes_d_cons (prev : Option Char)
    (hprev : prev = none ∨ prev = some '+' ∨ prev = some '-') (rest : List Char) :
    insertOnes prev ('d' :: rest) = '1' :: 'd' :: insertOnes (some 'd') rest := by
  simp only [insertOnes]
  split
  · rfl
  · next hcond => exact absurd ⟨by simp, hprev⟩ hcond

lemma renderTerm_chars (t : TermSpec) (h : termWF t = true) :
    ∀ c ∈ renderTerm t, coreChar c = true := by
  intro c hc
  cases t with
  | bare ip fp =>
    simp only [termWF, Bool.and_eq_true] at h
    simp only [renderTerm, List.mem_append] at hc
    rcases hc with hc | hc
    · simp [coreChar, List.all_eq_true.mp h.1.2 c hc]
    · cases fp with
      | none => simp [fracChars] at hc
      | some f =>
        simp only [fracChars, List.mem_cons] at hc
        simp only [optDigits, Bool.and_eq_true] at h
        rcases hc with rfl | hc
        · decide
        · simp [coreChar, List.all_eq_true.mp h.2.2 c hc]
  | dice d =>
    simp only [termWF, Bool.and_eq_true] at h
    simp only [renderTerm, List.mem_append, List.mem_cons] at hc
    rcases hc with hc | rfl | rfl | hc
    · simp [coreChar, List.all_eq_true.mp h.1 c hc]
    · decide
    · cases d.sides <;> decide
    · cases hm : d.mult with
      | none => rw [hm] at hc; simp [multChars] at hc
      | some m =>
        rw [hm] at hc h
        simp only [multChars, List.mem_cons] at hc
        simp only [optDigits, Bool.and_eq_true] at h
        rcases hc with rfl | hc
        · decide
        · simp [coreChar, List.all_eq_true.mp h.2.2 c hc]

lemma renderExpr_chars (neg0 : Bool) (t0 : TermSpec) (rest : List (Bool × TermSpec))
    (h0 : termWF t0 = true) (h : ∀ pr ∈ rest, termWF pr.2 = true) :
    ∀ c ∈ renderExpr neg0 t0 rest, exprChar c = true := by
  intro c hc
  simp only [renderExpr, List.append_assoc, List.mem_append] at hc
  rcases hc with hc | hc | hc
  · cases neg0 with
    | false => simp at hc
    | true =>
      simp only [if_true, List.mem_singleton] at hc
      subst hc
      decide
  · have := renderTerm_chars t0 h0 c hc
    simp [exprChar, this]
  · rw [List.mem_flatten] at hc
    obtain ⟨l, hl, hcl⟩ := hc
    rw [List.mem_map] at hl
    obtain ⟨pr, hpr, rfl⟩ := hl
    rcases List.mem_cons.mp hcl with rfl | hc2
    · cases pr.1 <;> simp [signChar, exprChar, coreChar]
    · have := renderTerm_chars pr.2 (h pr hpr) c hc2
      simp [exprChar, this]

lemma termWF_fill (t : TermSpec) (h : termWF t = true) : termWF (fillTerm t) = true := by
  cases t with
  | bare ip fp => exact h
  | dice d =>
    simp only [fillTerm, termWF, Bool.and_eq_true] at h ⊢
    refine ⟨?_, h.2⟩
    by_cases hc : d.count.isEmpty
    · rw [if_pos hc]
      decide
    · rw [if_neg hc]
      exact h.1

lemma renderTerm_fill_head (t : TermSpec) (h : termWF t = true) :
    ∃ c cs, renderTerm (fillTerm t) = c :: cs ∧ isDig c = true := by
  cases t with
  | bare ip fp =>
    simp only [termWF, Bool.and_eq_true] at h
    obtain ⟨⟨hne, hdig⟩, -⟩ := h
    cases ip with
    | nil => simp at hne
    | cons c cs =>
      exact ⟨c, cs ++ fracChars fp, by simp [fillTerm, renderTerm],
        List.all_eq_true.mp hdig c (List.mem_cons_self c cs)⟩
  | dice d =>
    simp only [termWF, Bool.and_eq_true] at h
    by_cases hc : d.count.isEmpty
    · refine ⟨'1', 'd' :: sidesChar d.sides :: multChars d.mult, ?_, by decide⟩
      simp [fillTerm, hc, renderTerm]
    · rcases hcount : d.count with _ | ⟨c, cs⟩
      · rw [hcount] at hc; simp at hc
      · refine ⟨c, cs ++ 'd' :: sidesChar d.sides :: multChars d.mult, ?_, ?_⟩
        · simp only [fillTerm, renderTerm]
          rw [if_neg (by simp [hc]), hcount]
          rfl
        · exact List.all_eq_true.mp h.1 c (by rw [hcount]; exact List.mem_cons_self c cs)

lemma renderTerm_fill_ne (t : TermSpec) (h : termWF t = true) :
    (renderTerm (fillTerm t)).isEmpty = false := by
  obtain ⟨c, cs, heq, -⟩ := renderTerm_fill_head t h
  rw [heq]
  rfl

lemma renderTerm_bare_no_d (ip : List Char) (fp : Option (List Char))
    (h : termWF (TermSpec.bare ip fp) = true) :
    ∀ c ∈ renderTerm (TermSpec.bare ip fp), c ≠ 'd' := by
  intro c hc
  simp only [termWF, Bool.and_eq_true] at h
  simp only [renderTerm, List.mem_append] at hc
  rcases hc with hc | hc
  · exact (isDig_ne (List.all_eq_true.mp h.1.2 c hc)).1
  · cases fp with
    | none => simp [fracChars] at hc
    | some f =>
      simp only [fracChars, List.mem_cons] at hc
      simp only [optDigits, Bool.and_eq_true] at h
      rcases hc with rfl | hc
      · decide
      · exact (isDig_ne (List.all_eq_true.mp h.2.2 c hc)).1

lemma dice_tail_no_d (d : DiceSpec) (h : termWF (TermSpec.dice d) = true) :
    ∀ c ∈ (sidesChar d.sides :: multChars d.mult : List Char), c ≠ 'd' := by
  intro c hc
  simp only [termWF, Bool.and_eq_true] at h
  rcases List.mem_cons.mp hc with rfl | hc2
  · cases d.sides <;> decide
  · cases hm : d.mult with
    | none => rw [hm] at hc2; simp [multChars] at hc2
    | some m =>
      rw [hm] at hc2 h
      simp only [multChars, List.mem_cons] at hc2
      simp only [optDigits, Bool.and_eq_true] at h
      rcases hc2 with rfl | hc3
      · decide
      · exact (isDig_ne (List.all_eq_true.mp h.2.2 c hc3)).1

lemma lastOr_cons_digits (prev : Option Char) (c0 : Char) (cs : List Char)
    (h : (c0 :: cs).all isDig = true) :
    ∃ lc, lastOr prev (c0 :: cs) = some lc ∧ isDig lc = true := by
  have hne : (c0 :: cs) ≠ [] := by simp
  refine ⟨(c0 :: cs).getLast hne, ?_, ?_⟩
  · unfold lastOr
    rw [List.getLast?_eq_getLast_of_ne_nil hne]
  · exact List.all_eq_true.mp h _ (List.getLast_mem hne)

lemma insertOnes_term (t : TermSpec) (h : termWF t = true) :
    ∀ prev : Option Char, (prev = none ∨ prev = some '+' ∨ prev = some '-') →
    insertOnes prev (renderTerm t) = renderTerm (fillTerm t) := by
  intro prev hprev
  cases t with
  | bare ip fp =>
    rw [insertOnes_no_d _ (renderTerm_bare_no_d ip fp h) prev]
    rfl
  | dice d =>
    obtain ⟨count, sides, mult⟩ := d
    have htail := dice_tail_no_d ⟨count, sides, mult⟩ h
    simp only [termWF, Bool.and_eq_true] at h
    cases count with
    | nil =>
      simp only [renderTerm, List.nil_append]
      rw [insertOnes_d_cons prev hprev]
      rw [insertOnes_no_d _ (fun c hc => htail c hc) (some 'd')]
      simp [fillTerm, renderTerm]
    | cons c0 cs =>
      have hdig : (c0 :: cs).all isDig = true := h.1
      have hnod : ∀ c ∈ (c0 :: cs), c ≠ 'd' := fun c hc =>
        (isDig_ne (List.all_eq_true.mp hdig c hc)).1
      simp only [renderTerm]
      rw [show (c0 :: cs) ++ 'd' :: sidesChar sides :: multChars mult =
            (c0 :: cs) ++ ('d' :: sidesChar sides :: multChars mult) from rfl]
      rw [insertOnes_append, insertOnes_no_d _ hnod prev]
      obtain ⟨lc, hlc, hlcd⟩ := lastOr_cons_digits prev c0 cs hdig
      rw [hlc]
      rw [insertOnes_cons_not (some lc) 'd' _ ?hcond]
      case hcond =>
        rintro ⟨-, hbad | hbad | hbad⟩
        · cases hbad
        · exact (isDig_ne hlcd).2.1 (by injection hbad)
        · exact (isDig_ne hlcd).2.2.1 (by injection hbad)
      rw [insertOnes_no_d _ (fun c hc => htail c hc) (some 'd')]
      simp only [fillTerm, renderTerm]
      rw [if_neg (by simp)]


lemma signChar_cases (b : Bool) : signChar b = '+' ∨ signChar b = '-' := by
  cases b <;> simp [signChar]

lemma signChar_ne_d (b : Bool) : signChar b ≠ 'd' := by
  cases b <;> decide

lemma insertOnes_flatten (rest : List (Bool × TermSpec)) (h : ∀ pr ∈ rest, termWF pr.2 = true) :
    ∀ prev : Option Char,
    insertOnes prev ((rest.map (fun pr => signChar pr.1 :: renderTerm pr.2)).flatten) =
      (rest.map (fun pr => signChar pr.1 :: renderTerm (fillTerm pr.2))).flatten := by
  induction rest with
  | nil => intro prev; rfl
  | cons pr rs ih =>
    intro prev
    simp only [List.map_cons, List.flatten_cons]
    rw [List.cons_append]
    rw [insertOnes_cons_not prev (signChar pr.1) _
        (by rintro ⟨hbad, -⟩; exact signChar_ne_d pr.1 hbad)]
    rw [insertOnes_append]
    rw [insertOnes_term pr.2 (h pr (List.mem_cons_self pr rs)) (some (signChar pr.1))
        (by rcases signChar_cases pr.1 with hs | hs <;> rw [hs] <;> tauto)]
    rw [ih (fun q hq => h q (List.mem_cons_of_mem pr hq)) _]
    simp

lemma insertOnes_expr (neg0 : Bool) (t0 : TermSpec) (rest : List (Bool × TermSpec))
    (h0 : termWF t0 = true) (h : ∀ pr ∈ rest, termWF pr.2 = true) :
    insertOnes none (renderExpr neg0 t0 rest) =
      renderExpr neg0 (fillTerm t0) (rest.map (fun pr => (pr.1, fillTerm pr.2))) := by
  unfold renderExpr
  rw [List.map_map]
  rw [show ((fun pr : Bool × TermSpec => signChar pr.1 :: renderTerm pr.2) ∘
        (fun pr : Bool × TermSpec => (pr.1, fillTerm pr.2)))
      = fun pr : Bool × TermSpec => signChar pr.1 :: renderTerm (fillTerm pr.2) from rfl]
  cases neg0 with
  | false =>
    simp only [Bool.false_eq_true, if_false, List.nil_append, List.append_assoc]
    rw [insertOnes_append, insertOnes_term t0 h0 none (Or.inl rfl),
        insertOnes_flatten rest h _]
  | true =>
    simp only [if_true, List.append_assoc, List.cons_append, List.nil_append]
    rw [insertOnes_cons_not none '-' _ (by rintro ⟨hbad, -⟩; cases hbad)]
    rw [insertOnes_append, insertOnes_term t0 h0 (some '-') (by tauto),
        insertOnes_flatten rest h _]

lemma tokenizeAux_fin (tok : List Char) (htok : tok.isEmpty = false) :
    tokenizeAux none tok [] = [tok] := by
  simp [tokenizeAux, htok]

lemma tokenizeAux_empty_sign (pending : Option Char) (s : Char)
    (hs : s = '+' ∨ s = '-') (rest : List Char) :
    tokenizeAux pending [] (s :: rest) = tokenizeAux (some s) [] rest := by
  simp only [tokenizeAux]
  rw [if_pos hs]
  rfl

lemma tokenizeAux_tok_sign (tok : List Char) (htok : tok.isEmpty = false) (s : Char)
    (hs : s = '+' ∨ s = '-') (rest : List Char) :
    tokenizeAux none tok (s :: rest) = tok :: tokenizeAux (some s) [] rest := by
  simp only [tokenizeAux]
  rw [if_pos hs, if_neg (by simp [htok])]

lemma tokenizeAux_run (cs : List Char) :
    ∀ (acc tail : List Char),
    (∀ c ∈ cs, (c = '+' ∨ c = '-') → False) → acc.isEmpty = false →
    tokenizeAux none acc (cs ++ tail) = tokenizeAux none (acc ++ cs) tail := by
  induction cs with
  | nil =>
    intro acc tail _ _
    rw [List.nil_append, List.append_nil]
  | cons c cs2 ih =>
    intro acc tail hcs hacc
    rw [List.cons_append]
    simp only [tokenizeAux]
    rw [if_neg (hcs c (List.mem_cons_self c cs2)), if_neg (by simp [hacc])]
    rw [ih (acc ++ [c]) tail (fun x hx => hcs x (List.mem_cons_of_mem c hx)) (by simp)]
    rw [List.append_assoc, List.singleton_append]

lemma tokenizeAux_start (pending : Option Char) (cs tail : List Char)
    (hne : cs ≠ []) (hcs : ∀ c ∈ cs, (c = '+' ∨ c = '-') → False) :
    tokenizeAux pending [] (cs ++ tail) = tokenizeAux none (pfxOf pending ++ cs) tail := by
  cases cs with
  | nil => exact absurd rfl hne
  | cons c cs2 =>
    rw [List.cons_append]
    simp only [tokenizeAux]
    rw [if_neg (hcs c (List.mem_cons_self c cs2))]
    simp only [List.isEmpty_nil, if_true]
    rw [tokenizeAux_run cs2 (pfxOf pending ++ [c]) tail
        (fun x hx => hcs x (List.mem_cons_of_mem c hx))
        (by cases pending <;> simp [pfxOf])]
    rw [List.append_assoc, List.singleton_append]

lemma tokenizeAux_terms (rest : List (Bool × TermSpec)) (h : ∀ pr ∈ rest, termWF pr.2 = true) :
    ∀ tok : List Char, tok.isEmpty = false →
    tokenizeAux none tok
        ((rest.map (fun pr => signChar pr.1 :: renderTerm (fillTerm pr.2))).flatten) =
      tok :: rest.map (fun pr => signChar pr.1 :: renderTerm (fillTerm pr.2)) := by
  induction rest with
  | nil => intro tok htok; exact tokenizeAux_fin tok htok
  | cons pr rs ih =>
    intro tok htok
    have hwf2 : termWF (fillTerm pr.2) = true := termWF_fill pr.2 (h pr (List.mem_cons_self pr rs))
    have hne : renderTerm (fillTerm pr.2) ≠ [] := by
      obtain ⟨c, cs, heq, -⟩ := renderTerm_fill_head pr.2 (h pr (List.mem_cons_self pr rs))
      rw [heq]
      simp
    have hcs : ∀ c ∈ renderTerm (fillTerm pr.2), (c = '+' ∨ c = '-') → False := fun c hc =>
      coreChar_not_sign (renderTerm_chars _ hwf2 c hc)
    simp only [List.map_cons, List.flatten_cons]
    rw [List.cons_append]
    rw [tokenizeAux_tok_sign tok htok (signChar pr.1) (signChar_cases pr.1) _]
    rw [tokenizeAux_start (some (signChar pr.1)) _ _ hne hcs]
    simp only [pfxOf, List.singleton_append]
    rw [ih (fun q hq => h q (List.mem_cons_of_mem pr hq))
        (signChar pr.1 :: renderTerm (fillTerm pr.2)) (by simp)]

lemma tokens_expr (neg0 : Bool) (t0 : TermSpec) (rest : List (Bool × TermSpec))
    (h0 : termWF t0 = true) (h : ∀ pr ∈ rest, termWF pr.2 = true) :
    tokenizeAux none []
        (renderExpr neg0 (fillTerm t0) (rest.map (fun pr => (pr.1, fillTerm pr.2)))) =
      ((if neg0 then ['-'] else []) ++ renderTerm (fillTerm t0)) ::
        rest.map (fun pr => signChar pr.1 :: renderTerm (fillTerm pr.2)) := by
  unfold renderExpr
  rw [List.map_map]
  rw [show ((fun pr : Bool × TermSpec => signChar pr.1 :: renderTerm pr.2) ∘
        (fun pr : Bool × TermSpec => (pr.1, fillTerm pr.2)))
      = fun pr : Bool × TermSpec => signChar pr.1 :: renderTerm (fillTerm pr.2) from rfl]
  have hne : renderTerm (fillTerm t0) ≠ [] := by
    obtain ⟨c, cs, heq, -⟩ := renderTerm_fill_head t0 h0
    rw [heq]
    simp
  have hcs : ∀ c ∈ renderTerm (fillTerm t0), (c = '+' ∨ c = '-') → False := fun c hc =>
    coreChar_not_sign (renderTerm_chars _ (termWF_fill t0 h0) c hc)
  cases neg0 with
  | false =>
    simp only [Bool.false_eq_true, if_false, List.nil_append, List.append_assoc]
    rw [tokenizeAux_start none _ _ hne hcs]
    simp only [pfxOf, List.nil_append]
    exact tokenizeAux_terms rest h _ (by rcases hr : renderTerm (fillTerm t0) with _ | ⟨c, cs⟩
                                         · exact absurd hr hne
                                         · simp)
  | true =>
    simp only [if_true, List.append_assoc, List.cons_append, List.nil_append]
    rw [tokenizeAux_empty_sign none '-' (by tauto) _]
    rw [tokenizeAux_start (some '-') _ _ hne hcs]
    simp only [pfxOf, List.singleton_append]
    exact tokenizeAux_terms rest h _ (by simp)


lemma takeWhile_app (p : Char → Bool) (xs ys : List Char)
    (h1 : ∀ c ∈ xs, p c = true) (h2 : ∀ c, ys.head? = some c → p c = false) :
    (xs ++ ys).takeWhile p = xs ∧ (xs ++ ys).dropWhile p = ys := by
  induction xs with
  | nil =>
    simp only [List.nil_append]
    cases ys with
    | nil => simp
    | cons y ys2 =>
      rw [List.takeWhile_cons, List.dropWhile_cons, h2 y rfl]
      simp
  | cons x xs2 ih =>
    rw [List.cons_append, List.takeWhile_cons, List.dropWhile_cons,
        h1 x (List.mem_cons_self x xs2)]
    have hr := ih (fun c hc => h1 c (List.mem_cons_of_mem x hc))
    simp [hr.1, hr.2]

lemma isEmpty_false_of_ne (xs : List Char) (h : xs ≠ []) : xs.isEmpty = false := by
  cases xs with
  | nil => exact absurd rfl h
  | cons c cs => rfl

lemma matchDiceTerm_dice (count : List Char) (s : DiceSides) (mult : Option (List Char))
    (hc : count ≠ []) (hcd : count.all isDig = true) (hm : optDigits mult = true) :
    matchDiceTerm (renderTerm (TermSpec.dice ⟨count, s, mult⟩)) =
      some ((natOfDigits count : ℚ) * ((sidesVal s + 1) / 2) * multVal mult) := by
  have happ := takeWhile_app isDig count ('d' :: sidesChar s :: multChars mult)
      (List.all_eq_true.mp hcd) (fun c hcq => by injection hcq with h1; subst h1; decide)
  unfold matchDiceTerm
  simp only [renderTerm, happ.1, happ.2, List.head?_cons, List.tail_cons]
  cases s with
  | three =>
    cases mult with
    | none => simp [multChars, multVal, sidesVal, sidesChar, isEmpty_false_of_ne count hc]
    | some m =>
      simp only [optDigits] at hm
      simp [multChars, multVal, sidesVal, sidesChar, isEmpty_false_of_ne count hc, hm]
  | six =>
    cases mult with
    | none => simp [multChars, multVal, sidesVal, sidesChar, isEmpty_false_of_ne count hc]
    | some m =>
      simp only [optDigits] at hm
      simp [multChars, multVal, sidesVal, sidesChar, isEmpty_false_of_ne count hc, hm]

lemma matchDiceTerm_bare (ip : List Char) (fp : Option (List Char))
    (hip : ip ≠ []) (hipd : ip.all isDig = true) (hfp : optDigits fp = true) :
    matchDiceTerm (renderTerm (TermSpec.bare ip fp)) = none
  ∧ matchesNumber (renderTerm (TermSpec.bare ip fp)) = true
  ∧ numVal (renderTerm (TermSpec.bare ip fp)) = termValue (TermSpec.bare ip fp) := by
  cases fp with
  | none =>
    have happ := takeWhile_app isDig ip [] (List.all_eq_true.mp hipd)
        (fun c hcq => by simp at hcq)
    rw [List.append_nil] at happ
    refine ⟨?_, ?_, ?_⟩
    · unfold matchDiceTerm
      simp only [renderTerm, fracChars, List.append_nil, happ.1, happ.2]
      rw [if_neg (by simp [isEmpty_false_of_ne ip hip])]
      rw [if_neg (by simp)]
    · unfold matchesNumber
      simp only [renderTerm, fracChars, List.append_nil, happ.1, happ.2]
      simp [isEmpty_false_of_ne ip hip]
    · unfold numVal
      simp only [renderTerm, fracChars, List.append_nil, happ.1, happ.2]
      rw [if_neg (by simp)]
      simp [termValue, fracVal]
  | some f =>
    have happ := takeWhile_app isDig ip ('.' :: f) (List.all_eq_true.mp hipd)
        (fun c hcq => by injection hcq with h1; subst h1; decide)
    simp only [optDigits, Bool.and_eq_true] at hfp
    refine ⟨?_, ?_, ?_⟩
    · unfold matchDiceTerm
      simp only [renderTerm, fracChars, happ.1, happ.2, List.head?_cons]
      rw [if_neg (by simp [isEmpty_false_of_ne ip hip])]
      rw [if_neg (by decide)]
    · unfold matchesNumber
      simp only [renderTerm, fracChars, happ.1, happ.2, List.head?_cons, List.tail_cons]
      simp [isEmpty_false_of_ne ip hip, hfp.1, hfp.2]
    · unfold numVal
      simp only [renderTerm, fracChars, happ.1, happ.2, List.head?_cons, List.tail_cons]
      rw [if_pos trivial]
      simp [termValue, fracVal]

lemma termValue_fill (t : TermSpec) : termValue (fillTerm t) = termValue t := by
  cases t with
  | bare ip fp => rfl
  | dice d =>
    simp only [fillTerm, termValue]
    by_cases hcym : d.count.isEmpty
    · rw [if_pos hcym, if_pos hcym]
      have h1 : natOfDigits ['1'] = 1 := by decide
      simp [h1]
    · simp only [if_neg hcym]

lemma evalTerm_core_val (t : TermSpec) (h : termWF t = true) :
    matchDiceTerm (renderTerm (fillTerm t)) = some (termValue t) ∨
    (matchDiceTerm (renderTerm (fillTerm t)) = none ∧
     matchesNumber (renderTerm (fillTerm t)) = true ∧
     numVal (renderTerm (fillTerm t)) = termValue t) := by
  cases t with
  | bare ip fp =>
    simp only [termWF, Bool.and_eq_true] at h
    have hb := matchDiceTerm_bare ip fp (by
        cases ip with
        | nil => simp at h
        | cons c cs => simp) h.1.2 h.2
    exact Or.inr ⟨hb.1, hb.2.1, hb.2.2⟩
  | dice d =>
    left
    simp only [termWF, Bool.and_eq_true] at h
    have hfillc : (if d.count.isEmpty then ['1'] else d.count) ≠ [] := by
      by_cases hcym : d.count.isEmpty
      · simp [hcym]
      · rw [if_neg hcym]
        intro hbad
        rw [hbad] at hcym
        exact hcym rfl
    have hfilld : (if d.count.isEmpty then ['1'] else d.count).all isDig = true := by
      by_cases hcym : d.count.isEmpty
      · rw [if_pos hcym]; decide
      · rw [if_neg hcym]; exact h.1
    have hmd := matchDiceTerm_dice (if d.count.isEmpty then ['1'] else d.count) d.sides d.mult
        hfillc hfilld h.2
    have hne2 : ¬((if d.count.isEmpty then ['1'] else d.count).isEmpty = true) := by
      rw [isEmpty_false_of_ne _ hfillc]
      exact Bool.false_ne_true
    have htv : termValue (TermSpec.dice
          ⟨if d.count.isEmpty then ['1'] else d.count, d.sides, d.mult⟩)
        = (natOfDigits (if d.count.isEmpty then ['1'] else d.count) : ℚ) *
            ((sidesVal d.sides + 1) / 2) * multVal d.mult := by
      simp only [termValue]
      rw [if_neg hne2]
    have hfill : fillTerm (TermSpec.dice d) = TermSpec.dice
        ⟨if d.count.isEmpty then ['1'] else d.count, d.sides, d.mult⟩ := rfl
    rw [← termValue_fill (TermSpec.dice d), hfill, hmd, htv]

lemma evalTerm_noSign (t : TermSpec) (h : termWF t = true) :
    evalTerm (renderTerm (fillTerm t)) = Res.ok (termValue t) := by
  obtain ⟨c, cs, heq, hdig⟩ := renderTerm_fill_head t h
  rw [heq]
  simp only [evalTerm]
  rw [if_neg ((isDig_ne hdig).2.2.1)]
  rw [if_neg (by rintro (rfl | rfl) <;> revert hdig <;> decide)]
  rw [← heq]
  rcases evalTerm_core_val t h with hv | ⟨hv, hmn, hnv⟩
  · simp only [hv]
    rw [one_mul]
  · simp only [hv]
    rw [if_pos hmn, one_mul, hnv]

lemma evalTerm_signed (b : Bool) (t : TermSpec) (h : termWF t = true) :
    evalTerm (signChar b :: renderTerm (fillTerm t)) = Res.ok (signVal b * termValue t) := by
  simp only [evalTerm]
  rw [if_pos (signChar_cases b)]
  have hsign : (if signChar b = '-' then (-1 : ℚ) else 1) = signVal b := by
    cases b <;> simp [signChar, signVal]
  rw [hsign]
  rcases evalTerm_core_val t h with hv | ⟨hv, hmn, hnv⟩
  · simp only [hv]
  · simp only [hv]
    rw [if_pos hmn, hnv]


lemma sumTermsAux_terms (rest : List (Bool × TermSpec)) (h : ∀ pr ∈ rest, termWF pr.2 = true) :
    ∀ acc : ℚ,
    sumTermsAux acc (rest.map (fun pr => signChar pr.1 :: renderTerm (fillTerm pr.2))) =
      Res.ok (acc + (rest.map (fun pr => signVal pr.1 * termValue pr.2)).sum) := by
  induction rest with
  | nil => intro acc; simp [sumTermsAux]
  | cons pr rs ih =>
    intro acc
    simp only [List.map_cons, sumTermsAux,
      evalTerm_signed pr.1 pr.2 (h pr (List.mem_cons_self pr rs))]
    rw [ih (fun q hq => h q (List.mem_cons_of_mem pr hq)) (acc + signVal pr.1 * termValue pr.2)]
    rw [List.sum_cons]
    congr 1
    ring

lemma sumPath (neg0 : Bool) (t0 : TermSpec) (rest : List (Bool × TermSpec))
    (h0 : termWF t0 = true) (h : ∀ pr ∈ rest, termWF pr.2 = true) :
    sumTermsAux 0 (tokenizeAux none [] (insertOnes none (renderExpr neg0 t0 rest))) =
      Res.ok (exprValue neg0 t0 rest) := by
  rw [insertOnes_expr neg0 t0 rest h0 h]
  rw [tokens_expr neg0 t0 rest h0 h]
  cases neg0 with
  | false =>
    simp only [Bool.false_eq_true, if_false, List.nil_append]
    simp only [sumTermsAux, evalTerm_noSign t0 h0]
    rw [sumTermsAux_terms rest h (0 + termValue t0)]
    unfold exprValue
    congr 1
    simp [signVal]
  | true =>
    simp only [if_true, List.singleton_append]
    rw [show ('-' :: renderTerm (fillTerm t0)) = signChar true :: renderTerm (fillTerm t0)
        from rfl]
    simp only [sumTermsAux, evalTerm_signed true t0 h0]
    rw [sumTermsAux_terms rest h (0 + signVal true * termValue t0)]
    unfold exprValue
    congr 1
    ring

lemma matchesNumber_chars (s : List Char) (h : matchesNumber s = true) :
    ∀ c ∈ s, isDig c = true ∨ c = '.' := by
  intro c hc
  unfold matchesNumber at h
  simp only [Bool.and_eq_true, Bool.or_eq_true] at h
  obtain ⟨h1, h2⟩ := h
  rw [← List.takeWhile_append_dropWhile (p := isDig) (l := s)] at hc
  rcases List.mem_append.mp hc with hm | hm
  · exact Or.inl (List.mem_takeWhile_imp hm)
  · rcases hrest : s.dropWhile isDig with _ | ⟨c0, fr⟩
    · rw [hrest] at hm; cases hm
    · rw [hrest] at h2 hm
      rcases h2 with h2 | h2
      · simp at h2
      · obtain ⟨⟨hh, -⟩, hall⟩ := h2
        simp only [List.head?_cons, beq_iff_eq, Option.some.injEq] at hh
        simp only [List.tail_cons] at hall
        rcases List.mem_cons.mp hm with rfl | hmf
        · exact Or.inr hh
        · exact Or.inl (List.all_eq_true.mp hall c hmf)

def chars2 : List Char := ['2']

def charsD3 : List Char := ['D', '3']

def charsD6 : List Char := ['D', '6']

def chars2D3p1 : List Char := ['2', 'D', '3', '+', '1']

def charsD6x2 : List Char := ['D', '6', '*', '2']

/-- C3: expected_from_dice returns the arithmetic expectation of its
expression: for a well-formed bare number its own value, for a term NdS
or NdS*M (count defaulting to 1 when omitted, S in 3 or 6) the value
N * (S + 1) / 2 * M, and for a signed sum of such terms the signed sum
of the term expectations; in particular the five concrete examples of
the specification evaluate as stated. -/
theorem C3_dice_expectation :
    (∀ (neg0 : Bool) (t0 : TermSpec) (rest : List (Bool × TermSpec)),
        termWF t0 = true → (∀ pr ∈ rest, termWF pr.2 = true) →
        expected_from_dice (renderExpr neg0 t0 rest) = Res.ok (exprValue neg0 t0 rest))
  ∧ expected_from_dice chars2 = Res.ok 2
  ∧ expected_from_dice charsD3 = Res.ok 2
  ∧ expected_from_dice charsD6 = Res.ok (7 / 2)
  ∧ expected_from_dice chars2D3p1 = Res.ok 5
  ∧ expected_from_dice charsD6x2 = Res.ok 7 := by
  refine ⟨?_, by with_unfolding_all rfl, by with_unfolding_all rfl, by with_unfolding_all rfl,
    by with_unfolding_all rfl, by with_unfolding_all rfl⟩
  intro neg0 t0 rest h0 h
  have hchars := renderExpr_chars neg0 t0 rest h0 h
  unfold expected_from_dice
  rw [normalize_of_exprChars _ hchars]
  by_cases hnum : matchesNumber (renderExpr neg0 t0 rest) = true
  · rw [if_pos hnum]
    have hdd := matchesNumber_chars _ hnum
    cases neg0 with
    | true =>
      exfalso
      have hmem : '-' ∈ renderExpr true t0 rest := by
        unfold renderExpr
        simp
      rcases hdd '-' hmem with hbad | hbad
      · revert hbad; decide
      · exact absurd hbad (by decide)
    | false =>
      cases rest with
      | cons pr rs =>
        exfalso
        have hmem : signChar pr.1 ∈ renderExpr false t0 (pr :: rs) := by
          unfold renderExpr
          refine List.mem_append.mpr (Or.inr ?_)
          rw [List.mem_flatten]
          exact ⟨signChar pr.1 :: renderTerm pr.2,
            List.mem_map.mpr ⟨pr, List.mem_cons_self pr rs, rfl⟩, List.mem_cons_self _ _⟩
        rcases signChar_cases pr.1 with hs | hs <;>
          rcases hdd _ hmem with hbad | hbad <;>
          (rw [hs] at hbad; revert hbad; decide)
      | nil =>
        cases t0 with
        | dice d =>
          exfalso
          have hmem : 'd' ∈ renderExpr false (TermSpec.dice d) [] := by
            unfold renderExpr renderTerm
            simp
          rcases hdd 'd' hmem with hbad | hbad
          · revert hbad; decide
          · exact absurd hbad (by decide)
        | bare ip fp =>
          simp only [termWF, Bool.and_eq_true] at h0
          have hb := matchDiceTerm_bare ip fp (by
              cases ip with
              | nil => simp at h0
              | cons c cs => simp) h0.1.2 h0.2
          unfold renderExpr
          simp only [List.map_nil, List.flatten_nil, List.append_nil, Bool.false_eq_true,
            if_false, List.nil_append]
          rw [hb.2.2]
          unfold exprValue
          simp [signVal]
  · rw [if_neg hnum]
    exact sumPath neg0 t0 rest h0 h

/-- Term 2d3 of the C3 witness. -/
def c3Term : TermSpec := TermSpec.dice ⟨['2'], DiceSides.three, none⟩

/-- Tail terms of the C3 witness: plus a bare 1. -/
def c3Rest : List (Bool × TermSpec) := [(false, TermSpec.bare ['1'] none)]

theorem C3_dice_expectation_witness :
    expected_from_dice (renderExpr false c3Term c3Rest) = Res.ok (exprValue false c3Term c3Rest)
  ∧ exprValue false c3Term c3Rest = 5 := by
  constructor
  · exact C3_dice_expectation.1 false c3Term c3Rest (by with_unfolding_all rfl)
      (by intro pr hpr
          rcases List.mem_singleton.mp hpr with rfl
          with_unfolding_all rfl)
  · with_unfolding_all rfl

end DamageCalc

namespace DamageCalc

/-! ## Claim C7 -/

/-- Sign stripping applied to a token before matching, as in the source
loop (tok with its leading sign removed). -/
def coreOf : List Char → List Char
  | [] => []
  | c :: rest => if c = '+' ∨ c = '-' then rest else c :: rest

/-- A token fails when its core matches neither the dice pattern nor the
bare-number pattern. -/
def termFails (tok : List Char) : Bool :=
  (matchDiceTerm (coreOf tok)).isNone && !(matchesNumber (coreOf tok))

lemma evalTerm_err_iff (tok : List Char) :
    (∃ e, evalTerm tok = Res.err e) ↔ termFails tok = true := by
  cases tok with
  | nil =>
    constructor
    · intro _
      with_unfolding_all rfl
    · intro _
      exact ⟨CalcError.unsupportedExpression [], rfl⟩
  | cons c rest =>
    constructor
    · rintro ⟨e, he⟩
      simp only [evalTerm] at he
      rcases hmd : matchDiceTerm (if c = '+' ∨ c = '-' then rest else c :: rest) with _ | v
      · rw [hmd] at he
        simp only at he
        by_cases hmn : matchesNumber (if c = '+' ∨ c = '-' then rest else c :: rest) = true
        · rw [if_pos hmn] at he
          cases he
        · simp only [termFails, coreOf, hmd, Option.isNone_none, Bool.true_and]
          cases hb : matchesNumber (if c = '+' ∨ c = '-' then rest else c :: rest)
          · rfl
          · exact absurd hb hmn
      · rw [hmd] at he
        simp only at he
        cases he
    · intro hf
      simp only [termFails, coreOf, Bool.and_eq_true, Option.isNone_iff_eq_none,
        Bool.not_eq_true', Bool.not_eq_true] at hf
      simp only [evalTerm, hf.1]
      rw [if_neg (by rw [hf.2]; exact Bool.false_ne_true)]
      exact ⟨CalcError.unsupportedExpression (c :: rest), rfl⟩

lemma evalTerm_err_shape (tok : List Char) (e : CalcError) (he : evalTerm tok = Res.err e) :
    e = CalcError.unsupportedExpression tok ∧ termFails tok = true := by
  cases tok with
  | nil =>
    refine ⟨?_, by with_unfolding_all rfl⟩
    simp only [evalTerm] at he
    injection he with h2
    exact h2.symm
  | cons c rest =>
    simp only [evalTerm] at he
    rcases hmd : matchDiceTerm (if c = '+' ∨ c = '-' then rest else c :: rest) with _ | v
    · rw [hmd] at he
      simp only at he
      by_cases hmn : matchesNumber (if c = '+' ∨ c = '-' then rest else c :: rest) = true
      · rw [if_pos hmn] at he
        cases he
      · rw [if_neg hmn] at he
        injection he with h2
        refine ⟨h2.symm, ?_⟩
        simp only [termFails, coreOf, hmd, Option.isNone_none, Bool.true_and]
        cases hb : matchesNumber (if c = '+' ∨ c = '-' then rest else c :: rest)
        · rfl
        · exact absurd hb hmn
    · rw [hmd] at he
      simp only at he
      cases he

lemma sumTermsAux_err_iff (toks : List (List Char)) :
    ∀ acc : ℚ, (∃ e, sumTermsAux acc toks = Res.err e) ↔ ∃ t ∈ toks, termFails t = true := by
  induction toks with
  | nil =>
    intro acc
    simp [sumTermsAux]
  | cons t ts ih =>
    intro acc
    simp only [sumTermsAux]
    rcases het : evalTerm t with v | e2
    · have hnf : ¬(termFails t = true) := fun hf => by
        obtain ⟨e, he⟩ := (evalTerm_err_iff t).mpr hf
        rw [he] at het
        cases het
      rw [ih (acc + v)]
      constructor
      · rintro ⟨t2, ht2, hf⟩
        exact ⟨t2, List.mem_cons_of_mem t ht2, hf⟩
      · rintro ⟨t2, ht2, hf⟩
        rcases List.mem_cons.mp ht2 with rfl | hm
        · exact absurd hf hnf
        · exact ⟨t2, hm, hf⟩
    · constructor
      · intro _
        exact ⟨t, List.mem_cons_self t ts, (evalTerm_err_iff t).mp ⟨e2, het⟩⟩
      · intro _
        exact ⟨e2, rfl⟩

lemma sumTermsAux_err_shape (toks : List (List Char)) :
    ∀ (acc : ℚ) (e : CalcError), sumTermsAux acc toks = Res.err e →
    ∃ tok, e = CalcError.unsupportedExpression tok ∧ termFails tok = true := by
  induction toks with
  | nil =>
    intro acc e he
    cases he
  | cons t ts ih =>
    intro acc e he
    simp only [sumTermsAux] at he
    rcases het : evalTerm t with v | e2
    · rw [het] at he
      simp only at he
      exact ih (acc + v) e he
    · rw [het] at he
      simp only at he
      injection he with h2
      obtain ⟨hsh, hfl⟩ := evalTerm_err_shape t e2 het
      exact ⟨t, by rw [← h2, hsh], hfl⟩

def charsBogus : List Char := ['b', 'o', 'g', 'u', 's']

/-- C7: expected_from_dice fails exactly when some token of the
normalised, one-inserted expression matches neither the dice pattern nor
the bare-number pattern, every such failure is an UnsupportedExpression
naming an offending token, the two re-roll helpers fail exactly on modes
outside none, ones, failed, every such failure is UnknownRerollMode, and
the string bogus fails as stated. -/
theorem C7_error_modes :
    (∀ s : List Char,
        (∃ e, expected_from_dice s = Res.err e) ↔
          (matchesNumber (normalize s) = false ∧
            ∃ tok ∈ tokenizeAux none [] (insertOnes none (normalize s)), termFails tok = true))
  ∧ (∀ (s : List Char) (e : CalcError), expected_from_dice s = Res.err e →
        ∃ tok, e = CalcError.unsupportedExpression tok ∧ termFails tok = true)
  ∧ (∀ (p : ℚ) (mode : String),
        p_success_with_reroll p mode = Res.err CalcError.unknownRerollMode ↔
          (mode ≠ "none" ∧ mode ≠ "ones" ∧ mode ≠ "failed"))
  ∧ (∀ (p : ℚ) (mode : String) (e : CalcError),
        p_success_with_reroll p mode = Res.err e → e = CalcError.unknownRerollMode)
  ∧ (∀ (p : ℚ) (mode : String),
        p_nat6_with_reroll p mode = Res.err CalcError.unknownRerollMode ↔
          (mode ≠ "none" ∧ mode ≠ "ones" ∧ mode ≠ "failed"))
  ∧ (∀ (p : ℚ) (mode : String) (e : CalcError),
        p_nat6_with_reroll p mode = Res.err e → e = CalcError.unknownRerollMode)
  ∧ expected_from_dice charsBogus = Res.err (CalcError.unsupportedExpression charsBogus) := by
  refine ⟨?_, ?_, ?_, ?_, ?_, ?_, by with_unfolding_all rfl⟩
  · intro s
    unfold expected_from_dice
    by_cases hnum : matchesNumber (normalize s) = true
    · rw [if_pos hnum]
      constructor
      · rintro ⟨e, he⟩
        cases he
      · rintro ⟨hfalse, -⟩
        rw [hnum] at hfalse
        cases hfalse
    · rw [if_neg hnum]
      have hfalse : matchesNumber (normalize s) = false := by
        cases hb : matchesNumber (normalize s)
        · rfl
        · exact absurd hb hnum
      rw [sumTermsAux_err_iff _ 0]
      constructor
      · intro hex
        exact ⟨hfalse, hex⟩
      · rintro ⟨-, hex⟩
        exact hex
  · intro s e he
    unfold expected_from_dice at he
    by_cases hnum : matchesNumber (normalize s) = true
    · rw [if_pos hnum] at he
      cases he
    · rw [if_neg hnum] at he
      exact sumTermsAux_err_shape _ 0 e he
  · intro p mode
    unfold p_success_with_reroll
    by_cases h1 : mode = "none"
    · rw [if_pos h1]
      constructor
      · intro hbad
        cases hbad
      · rintro ⟨ha, -, -⟩
        exact absurd h1 ha
    · rw [if_neg h1]
      by_cases h2 : mode = "failed"
      · rw [if_pos h2]
        constructor
        · intro hbad
          cases hbad
        · rintro ⟨-, -, hc⟩
          exact absurd h2 hc
      · rw [if_neg h2]
        by_cases h3 : mode = "ones"
        · rw [if_pos h3]
          constructor
          · intro hbad
            cases hbad
          · rintro ⟨-, hb, -⟩
            exact absurd h3 hb
        · rw [if_neg h3]
          exact ⟨fun _ => ⟨h1, h3, h2⟩, fun _ => rfl⟩
  · intro p mode e
    unfold p_success_with_reroll
    by_cases h1 : mode = "none"
    · rw [if_pos h1]
      intro hbad
      cases hbad
    · rw [if_neg h1]
      by_cases h2 : mode = "failed"
      · rw [if_pos h2]
        intro hbad
        cases hbad
      · rw [if_neg h2]
        by_cases h3 : mode = "ones"
        · rw [if_pos h3]
          intro hbad
          cases hbad
        · rw [if_neg h3]
          intro he
          injection he with h4
          exact h4.symm
  · intro p mode
    unfold p_nat6_with_reroll
    by_cases h1 : mode = "none"
    · rw [if_pos h1]
      constructor
      · intro hbad
        cases hbad
      · rintro ⟨ha, -, -⟩
        exact absurd h1 ha
    · rw [if_neg h1]
      by_cases h2 : mode = "ones"
      · rw [if_pos h2]
        constructor
        · intro hbad
          cases hbad
        · rintro ⟨-, hb, -⟩
          exact absurd h2 hb
      · rw [if_neg h2]
        by_cases h3 : mode = "failed"
        · rw [if_pos h3]
          constructor
          · intro hbad
            cases hbad
          · rintro ⟨-, -, hc⟩
            exact absurd h3 hc
        · rw [if_neg h3]
          exact ⟨fun _ => ⟨h1, h2, h3⟩, fun _ => rfl⟩
  · intro p mode e
    unfold p_nat6_with_reroll
    by_cases h1 : mode = "none"
    · rw [if_pos h1]
      intro hbad
      cases hbad
    · rw [if_neg h1]
      by_cases h2 : mode = "ones"
      · rw [if_pos h2]
        intro hbad
        cases hbad
      · rw [if_neg h2]
        by_cases h3 : mode = "failed"
        · rw [if_pos h3]
          intro hbad
          cases hbad
        · rw [if_neg h3]
          intro he
          injection he with h4
          exact h4.symm

/-- Mode string outside the recognised set, for the C7 witness. -/
def strWeird : String := "weird"

theorem C7_error_modes_witness :
    p_success_with_reroll 0 strWeird = Res.err CalcError.unknownRerollMode := by
  have hne : strWeird ≠ "none" ∧ strWeird ≠ "ones" ∧ strWeird ≠ "failed" := by
    refine ⟨?_, ?_, ?_⟩ <;> decide
  exact (C7_error_modes.2.2.1 0 strWeird).mpr hne

end DamageCalc
